import Mathlib

/-!
Verification of the reactive-signal core of the `wasmide` repository
(`src/signal.rs`): the `RawSignal` mutation/notification engine with its
reentrancy state machine, subscriber registry, deferred deletion and
identity-based unsubscription, together with the `Signal` handle and the
`Unsubscriber` / `DroppableUnsubscriber` cancellation capabilities.

The embedding is a shallow one.  The stored value type is fixed to `Int`
(the source is generic in `T`; all claims are about the engine, not the
value type).  Rust closures held by the registry are modelled by a small
deep-embedded action language `Act`, so that reentrant callbacks
(subscribing, cancelling or mutating from inside a notification pass) can
be executed by a fuel-indexed interpreter.  Three ghost fields record the
externally observable behaviour and nothing else:

  * `events`  : every `(observer, value)` pair recorded by a callback,
    in execution order (a Rust test callback pushing into a vector);
  * `fired`   : the identifiers of the notifiers invoked by
    `notify_all`, in invocation order;
  * `issued`  : the identifiers returned by successive `for_each`
    (subscribe) calls, in call order.

All interpreter functions consume one unit of fuel per call; with fuel
`0` they return the state unchanged.  Every concrete scenario below is
run with ample fuel, and all invariants are proved for every fuel.
-/

/-- `core::num::NonZeroU32` saturates at `u32::MAX`. -/
def U32MAX : Nat := 4294967295

/-- `NonZeroU32::saturating_add(1)` (src/signal.rs line 126). -/
def satAdd (n : Nat) : Nat := min (n + 1) U32MAX

/-- `pub struct SignalUpdatingError;` (src/signal.rs line 10). -/
structure SignalUpdatingError where
deriving DecidableEq

/-- The state machine of the raw signal (src/signal.rs lines 47-57). -/
inductive SignalState where
  | Idling
  | Mutating
  | Subscribing
deriving DecidableEq

/-- The callback language: the bodies of the Rust closures handed to
`for_each` in the scenarios of the specification.  `record o` pushes the
signal's current value into observer `o`'s log; `cancel id` calls
`RawSignal::unsubscribe(id)`; `subscribe body` reentrantly calls
`RawSignal::for_each` with a new callback; `onValue v acts` runs `acts`
only when the current value is `v` (an `if` inside a test closure);
`trySet v` calls `try_mutate` setting the value to `v`, ignoring a
returned error. -/
inductive Act where
  | record (obs : Nat)
  | cancel (id : Nat)
  | subscribe (body : List Act)
  | onValue (v : Int) (acts : List Act)
  | trySet (v : Int)

/-- One registry entry (src/signal.rs lines 18-22): the identifier and
tombstone flag packed in `NotifierState`, plus the boxed callback. -/
structure Notifier where
  id : Nat
  deleted : Bool
  notify : List Act

/-- `RawSignal` (src/signal.rs lines 59-65) together with the stored
value owned by `InnerSignal` (line 159) and the three ghost observation
fields described in the header comment. -/
structure RawSignal where
  state : SignalState
  subscribers : List Notifier
  next_id : Nat
  needs_delete : Bool
  value : Int
  events : List (Nat × Int)
  fired : List Nat
  issued : List Nat

/-- `RawSignal::new` plus an initial value, i.e. `Signal::new`
(src/signal.rs lines 68-76 and 173-177). -/
def Signal.new (v : Int) : RawSignal :=
  { state := .Idling
    subscribers := []
    next_id := 1
    needs_delete := false
    value := v
    events := []
    fired := []
    issued := [] }

/-- The loop of `Vec::binary_search_by_key(&id, Notifier::id)` as used
at src/signal.rs line 144: the standard library's binary search over the
window `[left, right)`, here structurally recursive on the window size
`d` (each halving strictly shrinks the window, so `d = right - left`
always suffices).  Only the success/failure distinction is used by
`unsubscribe`, so the result is an `Option` of the found index. -/
def bsearchF : Nat → Nat → List Notifier → Nat → Nat → Option Nat
  | 0, _, _, _, _ => none
  | d + 1, key, l, left, right =>
    if left < right then
      let mid := left + (right - left) / 2
      match l[mid]? with
      | none => none
      | some n =>
        if n.id < key then bsearchF d key l (mid + 1) right
        else if key < n.id then bsearchF d key l left mid
        else some mid
    else none

/-- The binary search entered with its own window size as the bound. -/
def bsearch (key : Nat) (l : List Notifier) (left right : Nat) : Option Nat :=
  bsearchF (right - left) key l left right

/-- `RawSignal::unsubscribe` (src/signal.rs lines 140-155): find the
notifier by identifier with a binary search; while `Mutating`, only
tombstone it and set the sweep flag; otherwise remove it physically.
An unknown identifier is a no-op. -/
def RawSignal.unsubscribe (id : Nat) (s : RawSignal) : RawSignal :=
  match bsearch id s.subscribers 0 s.subscribers.length with
  | some index =>
    if s.state = SignalState.Mutating then
      match s.subscribers[index]? with
      | some n =>
        { s with
          subscribers := s.subscribers.set index { n with deleted := true }
          needs_delete := true }
      | none => s
    else
      { s with subscribers := s.subscribers.eraseIdx index }
  | none => s

mutual

/-- Runs a callback body: the sequential execution of a Rust closure's
statements. -/
def runActs : Nat → List Act → RawSignal → RawSignal
  | 0, _, s => s
  | _ + 1, [], s => s
  | fuel + 1, a :: rest, s => runActs fuel rest (runAct fuel a s)

/-- Runs a single callback action (see `Act`). -/
def runAct : Nat → Act → RawSignal → RawSignal
  | 0, _, s => s
  | _ + 1, .record o, s => { s with events := s.events ++ [(o, s.value)] }
  | _ + 1, .cancel id, s => RawSignal.unsubscribe id s
  | fuel + 1, .subscribe body, s => RawSignal.for_each fuel body s
  | fuel + 1, .onValue v acts, s => if s.value = v then runActs fuel acts s else s
  | fuel + 1, .trySet v, s => RawSignal.mutateCore fuel (fun _ => v) s

/-- `RawSignal::for_each` (src/signal.rs lines 118-138): if the state is
not `Mutating`, fire the new callback once immediately under a forced
`Subscribing` state, restoring the previous state afterwards; then
assign the next identifier (saturating increment) and append the
callback to the registry as a live notifier.  The assigned identifier is
recorded in the ghost `issued` list. -/
def RawSignal.for_each : Nat → List Act → RawSignal → RawSignal
  | 0, _, s => s
  | fuel + 1, body, s =>
    let s1 :=
      if s.state = SignalState.Mutating then s
      else { runActs fuel body { s with state := .Subscribing } with state := s.state }
    let id := s1.next_id
    { s1 with
      next_id := satAdd s1.next_id
      subscribers := s1.subscribers ++ [{ id := id, deleted := false, notify := body }]
      issued := s1.issued ++ [id] }

/-- The state-transformer core of `RawSignal::try_mutate`
(src/signal.rs lines 101-116): when `Idling`, enter `Mutating`, apply
the mutation to the stored value, run `notify_all`, return to `Idling`;
otherwise leave the state untouched (the `Err` branch, surfaced by
`RawSignal.try_mutate` below). -/
def RawSignal.mutateCore : Nat → (Int → Int) → RawSignal → RawSignal
  | 0, _, s => s
  | fuel + 1, f, s =>
    if s.state = SignalState.Idling then
      let s1 := { s with state := .Mutating, value := f s.value }
      let s2 := RawSignal.notify_all fuel 0 s1
      { s2 with state := .Idling }
    else s

/-- `RawSignal::notify_all` (src/signal.rs lines 82-99) with its loop
index `i` explicit: while `i` is below the *current* registry length,
invoke the notifier at position `i` if it is not tombstoned (recording
its identifier in the ghost `fired` list), then advance.  When the loop
exits, if `needs_delete` was set, take it and run
`subscribers.retain(Notifier::deleted)` — which, as written in the
source, keeps exactly the tombstoned entries. -/
def RawSignal.notify_all : Nat → Nat → RawSignal → RawSignal
  | 0, _, s => s
  | fuel + 1, i, s =>
    if h : i < s.subscribers.length then
      let n := s.subscribers.get ⟨i, h⟩
      let s1 :=
        if n.deleted then s
        else runActs fuel n.notify { s with fired := s.fired ++ [n.id] }
      RawSignal.notify_all fuel (i + 1) s1
    else
      if s.needs_delete then
        { s with
          needs_delete := false
          subscribers := s.subscribers.filter (fun n => n.deleted) }
      else s

end

/-- `RawSignal::try_mutate` (src/signal.rs lines 101-116) with its
`Result`: the guard `state != Idling` yields `SignalUpdatingError` and
no side effect at all; otherwise the mutation and notification pass run
as in `mutateCore`. -/
def RawSignal.try_mutate (fuel : Nat) (f : Int → Int) (s : RawSignal) :
    Except SignalUpdatingError RawSignal :=
  if s.state = SignalState.Idling then .ok (RawSignal.mutateCore fuel f s)
  else .error {}

/-- `Signal::try_set` (src/signal.rs lines 190-193). -/
def Signal.try_set (fuel : Nat) (v : Int) (s : RawSignal) :
    Except SignalUpdatingError RawSignal :=
  RawSignal.try_mutate fuel (fun _ => v) s

/-- `Signal::try_update` (src/signal.rs lines 185-188). -/
def Signal.try_update (fuel : Nat) (f : Int → Int) (s : RawSignal) :
    Except SignalUpdatingError RawSignal :=
  RawSignal.try_mutate fuel (fun x => f x) s

/-- `Signal::mutate` (src/signal.rs lines 195-198): unwraps, so the
error case is an abort, modelled as `none`. -/
def Signal.mutate (fuel : Nat) (f : Int → Int) (s : RawSignal) : Option RawSignal :=
  match RawSignal.try_mutate fuel f s with
  | .ok s1 => some s1
  | .error _ => none

/-- `Signal::update` (src/signal.rs lines 200-203). -/
def Signal.update (fuel : Nat) (f : Int → Int) (s : RawSignal) : Option RawSignal :=
  match Signal.try_update fuel f s with
  | .ok s1 => some s1
  | .error _ => none

/-- `Signal::set` (src/signal.rs lines 205-208). -/
def Signal.set (fuel : Nat) (v : Int) (s : RawSignal) : Option RawSignal :=
  match Signal.try_set fuel v s with
  | .ok s1 => some s1
  | .error _ => none

/-- A top-level operation issued by a client holding the handle, while
the cell is otherwise at rest. -/
inductive Op where
  | subscribe (body : List Act)
  | unsubscribe (id : Nat)
  | set (v : Int)

/-- Runs one top-level operation. -/
def runOp (fuel : Nat) (op : Op) (s : RawSignal) : RawSignal :=
  match op with
  | .subscribe body => RawSignal.for_each fuel body s
  | .unsubscribe id => RawSignal.unsubscribe id s
  | .set v => RawSignal.mutateCore fuel (fun _ => v) s

/-- Runs a sequence of top-level operations. -/
def runOps (fuel : Nat) (ops : List Op) (s : RawSignal) : RawSignal :=
  ops.foldl (fun s op => runOp fuel op s) s

/-- The values recorded by observer `o` (ghost projection). -/
def recordsOf (o : Nat) (s : RawSignal) : List Int :=
  (s.events.filter (fun e => e.1 = o)).map (fun e => e.2)

/-- `pub struct Unsubscriber<T>(Option<NotifierRef<T>>);`
(src/signal.rs lines 259-261): the cancellation capability, holding
(at most once) the captured identifier.  The weak back-reference to the
cell is modelled by the `Option RawSignal` argument of `unsubscribe`
below: `some` when the cell is still alive, `none` when it has been
destroyed (the upgrade fails). -/
structure Unsubscriber where
  info : Option Nat

/-- `Unsubscriber::unsubscribe` (src/signal.rs lines 269-276): take the
stored reference out (so a second call is a no-op); if the weak
reference still upgrades, call `RawSignal::unsubscribe` with the
captured identifier, else do nothing. -/
def Unsubscriber.unsubscribe (u : Unsubscriber) (cell : Option RawSignal) :
    Unsubscriber × Option RawSignal :=
  match u.info with
  | none => (u, cell)
  | some id => (⟨none⟩, cell.map (RawSignal.unsubscribe id))

/-- `Unsubscriber::needed` (src/signal.rs lines 264-267), named
`has_effect` in src/signal/mod.rs lines 199-202. -/
def Unsubscriber.needed (u : Unsubscriber) : Bool :=
  u.info.isSome

/-- `pub struct DroppableUnsubscriber<T>(pub Unsubscriber<T>);`
(src/signal.rs lines 291-293), the scoped cancellation capability
(`DropUnsubscriber` in src/signal/mod.rs lines 212-214). -/
structure DroppableUnsubscriber where
  inner : Unsubscriber

/-- `DroppableUnsubscriber::take` (src/signal.rs lines 295-300):
`Unsubscriber(self.0.0.take())` moves the option out and leaves `None`
behind in `self`, whose later drop therefore cancels nothing.  The pair
returned here is (the extracted unsubscriber, what is left in `self`).
`DropUnsubscriber::take` in src/signal/mod.rs lines 216-224 reaches the
same end by `transmute_copy` plus `mem::forget` (no drop runs at all). -/
def DroppableUnsubscriber.take (d : DroppableUnsubscriber) :
    Unsubscriber × DroppableUnsubscriber :=
  (⟨d.inner.info⟩, ⟨⟨none⟩⟩)

/-- `impl Drop for DroppableUnsubscriber` (src/signal.rs lines
325-330): dropping the scoped capability runs `self.0.unsubscribe()`.
Rust runs this exactly once, when the owning scope ends. -/
def DroppableUnsubscriber.drop (d : DroppableUnsubscriber)
    (cell : Option RawSignal) : Unsubscriber × Option RawSignal :=
  d.inner.unsubscribe cell

/-- Deferred-deletion scenario: three subscribers; during the pass the
first cancels the second. -/
def c1state : RawSignal :=
  runOps 12
    [.subscribe [.record 1, .cancel 2],
     .subscribe [.record 2],
     .subscribe [.record 3],
     .set 7]
    (Signal.new 0)

/-- End-to-end scenario: observer A (index 0) records every value and,
inside its callback for value 10, subscribes observer B (index 1). -/
def c2state : RawSignal :=
  runOps 12
    [.subscribe [.record 0, .onValue 10 [.subscribe [.record 1]]],
     .set 5, .set 10, .set 15]
    (Signal.new 0)

/-- Reentrant-subscribe scenario: three pre-existing subscribers; the
second, during the pass for value 7 only, subscribes a fourth. -/
def c6state : RawSignal :=
  runOps 12
    [.subscribe [.record 1],
     .subscribe [.record 2, .onValue 7 [.subscribe [.record 4]]],
     .subscribe [.record 3],
     .set 7]
    (Signal.new 0)

/-- A cell observed in the middle of its own notification pass. -/
def mutatingState : RawSignal :=
  { state := .Mutating
    subscribers := []
    next_id := 1
    needs_delete := false
    value := 0
    events := []
    fired := []
    issued := [] }

/-- The identifiers of the registry entries, in registry order. -/
def idsOf (s : RawSignal) : List Nat := s.subscribers.map Notifier.id

/-- The registry/identity invariant: registry identifiers are strictly
increasing in registry order and below the counter, the ghost list of
issued identifiers is strictly increasing and below the counter, and the
counter is within the `u32` range. -/
def SigInv (s : RawSignal) : Prop :=
  List.Pairwise (· < ·) (idsOf s) ∧
  (∀ y ∈ idsOf s, y < s.next_id) ∧
  List.Pairwise (· < ·) s.issued ∧
  (∀ y ∈ s.issued, y < s.next_id) ∧
  s.next_id ≤ U32MAX

/-- `unsubscribe` touches only `subscribers` and `needs_delete`. -/
theorem unsubscribe_fields (id : Nat) (s : RawSignal) :
    (RawSignal.unsubscribe id s).state = s.state ∧
    (RawSignal.unsubscribe id s).next_id = s.next_id ∧
    (RawSignal.unsubscribe id s).fired = s.fired ∧
    (RawSignal.unsubscribe id s).issued = s.issued ∧
    (RawSignal.unsubscribe id s).events = s.events ∧
    (RawSignal.unsubscribe id s).value = s.value := by
  unfold RawSignal.unsubscribe
  cases bsearch id s.subscribers 0 s.subscribers.length with
  | none => exact ⟨rfl, rfl, rfl, rfl, rfl, rfl⟩
  | some index =>
    simp only
    split
    · cases s.subscribers[index]? <;> simp
    · simp

/-- While `Mutating`, `unsubscribe` only tombstones: the identifier
sequence of the registry is unchanged. -/
theorem unsubscribe_ids_mutating (id : Nat) (s : RawSignal)
    (h : s.state = SignalState.Mutating) :
    idsOf (RawSignal.unsubscribe id s) = idsOf s := by
  unfold RawSignal.unsubscribe
  cases hb : bsearch id s.subscribers 0 s.subscribers.length with
  | none => rfl
  | some index =>
    simp only [h, if_true]
    cases hg : s.subscribers[index]? with
    | none => rfl
    | some n =>
      simp only [idsOf]
      have hidx : index < s.subscribers.length := by
        by_contra hc
        rw [List.getElem?_eq_none (by omega)] at hg
        exact Option.noConfusion hg
      apply List.ext_getElem
      · simp
      · intro j h1 h2
        rw [List.getElem_map, List.getElem_map, List.getElem_set]
        split
        · rename_i hj
          subst hj
          have : s.subscribers[index] = n := by
            rw [List.getElem?_eq_getElem hidx] at hg
            exact Option.some.injEq _ _ ▸ hg.symm ▸ rfl
          simp [← this]
        · rfl

/-- `unsubscribe` never grows the registry: outside a pass it erases the
found entry, inside a pass it rewrites one entry in place. -/
theorem unsubscribe_ids_sublist (id : Nat) (s : RawSignal) :
    ∀ y ∈ idsOf (RawSignal.unsubscribe id s), y ∈ idsOf s := by
  intro y hy
  unfold RawSignal.unsubscribe at hy
  cases hb : bsearch id s.subscribers 0 s.subscribers.length with
  | none => rw [hb] at hy; exact hy
  | some index =>
    rw [hb] at hy
    simp only at hy
    by_cases hst : s.state = SignalState.Mutating
    · rw [if_pos hst] at hy
      cases hg : s.subscribers[index]? with
      | none => rw [hg] at hy; exact hy
      | some n =>
        rw [hg] at hy
        simp only [idsOf] at hy ⊢
        rcases List.mem_map.mp hy with ⟨m, hm, hym⟩
        rcases List.mem_or_eq_of_mem_set hm with h1 | h1
        · exact List.mem_map.mpr ⟨m, h1, hym⟩
        · subst h1
          have hidx : index < s.subscribers.length := by
            by_contra hc
            rw [List.getElem?_eq_none (by omega)] at hg
            exact Option.noConfusion hg
          rw [List.getElem?_eq_getElem hidx] at hg
          have hn : s.subscribers[index] = n := by injection hg
          refine List.mem_map.mpr ⟨s.subscribers[index], List.getElem_mem hidx, ?_⟩
          rw [hn, ← hym]
    · rw [if_neg hst] at hy
      simp only [idsOf] at hy ⊢
      rcases List.mem_map.mp hy with ⟨m, hm, hym⟩
      exact List.mem_map.mpr ⟨m, (List.eraseIdx_sublist _ _).mem hm, hym⟩

/-- A failed guard leaves `mutateCore` as the identity. -/
theorem mutateCore_notIdle (fuel : Nat) (f : Int → Int) (s : RawSignal)
    (h : s.state ≠ SignalState.Idling) :
    RawSignal.mutateCore fuel f s = s := by
  cases fuel with
  | zero => rfl
  | succ fuel => simp [RawSignal.mutateCore, h]

theorem satAdd_le (n : Nat) (h : n ≤ U32MAX) : n ≤ satAdd n ∧ satAdd n ≤ U32MAX := by
  unfold satAdd U32MAX at *
  omega

theorem satAdd_lt (n : Nat) (h : satAdd n < U32MAX) : satAdd n = n + 1 ∧ n < U32MAX := by
  unfold satAdd U32MAX at *
  omega

/-- No interpreter function changes the observable `state` field: every
entry point restores (or never touches) the state it found. -/
theorem statePres : ∀ fuel : Nat,
    (∀ acts s, (runActs fuel acts s).state = s.state) ∧
    (∀ a s, (runAct fuel a s).state = s.state) ∧
    (∀ body s, (RawSignal.for_each fuel body s).state = s.state) ∧
    (∀ f s, (RawSignal.mutateCore fuel f s).state = s.state) ∧
    (∀ i s, (RawSignal.notify_all fuel i s).state = s.state) := by
  intro fuel
  induction fuel with
  | zero => exact ⟨fun _ _ => rfl, fun _ _ => rfl, fun _ _ => rfl, fun _ _ => rfl,
      fun _ _ => rfl⟩
  | succ fuel ih =>
    obtain ⟨ih1, ih2, ih3, ih4, ih5⟩ := ih
    refine ⟨?_, ?_, ?_, ?_, ?_⟩
    · intro acts s
      cases acts with
      | nil => rfl
      | cons a rest => rw [runActs, ih1, ih2]
    · intro a s
      cases a with
      | record o => rfl
      | cancel id => exact (unsubscribe_fields id s).1
      | subscribe body => exact ih3 body s
      | onValue v acts =>
        rw [runAct]
        split
        · exact ih1 acts s
        · rfl
      | trySet v => exact ih4 _ s
    · intro body s
      rw [RawSignal.for_each]
      split <;> rfl
    · intro f s
      rw [RawSignal.mutateCore]
      split
      · rename_i hs
        simp [hs]
      · rfl
    · intro i s
      rw [RawSignal.notify_all]
      split
      · rename_i h
        rw [ih5]
        split
        · rfl
        · exact ih1 _ _
      · split <;> rfl


/-- As long as the counter starts within the `u32` range it stays
there, and it never decreases. -/
theorem monoNext : ∀ fuel : Nat,
    (∀ acts s, s.next_id ≤ U32MAX →
      s.next_id ≤ (runActs fuel acts s).next_id ∧ (runActs fuel acts s).next_id ≤ U32MAX) ∧
    (∀ a s, s.next_id ≤ U32MAX →
      s.next_id ≤ (runAct fuel a s).next_id ∧ (runAct fuel a s).next_id ≤ U32MAX) ∧
    (∀ body s, s.next_id ≤ U32MAX →
      s.next_id ≤ (RawSignal.for_each fuel body s).next_id ∧
      (RawSignal.for_each fuel body s).next_id ≤ U32MAX) ∧
    (∀ f s, s.next_id ≤ U32MAX →
      s.next_id ≤ (RawSignal.mutateCore fuel f s).next_id ∧
      (RawSignal.mutateCore fuel f s).next_id ≤ U32MAX) ∧
    (∀ i s, s.next_id ≤ U32MAX →
      s.next_id ≤ (RawSignal.notify_all fuel i s).next_id ∧
      (RawSignal.notify_all fuel i s).next_id ≤ U32MAX) := by
  intro fuel
  induction fuel with
  | zero => exact ⟨fun _ _ h => ⟨le_refl _, h⟩, fun _ _ h => ⟨le_refl _, h⟩,
      fun _ _ h => ⟨le_refl _, h⟩, fun _ _ h => ⟨le_refl _, h⟩, fun _ _ h => ⟨le_refl _, h⟩⟩
  | succ fuel ih =>
    obtain ⟨ih1, ih2, ih3, ih4, ih5⟩ := ih
    refine ⟨?_, ?_, ?_, ?_, ?_⟩
    · intro acts s h
      cases acts with
      | nil => exact ⟨le_refl _, h⟩
      | cons a rest =>
        rw [runActs]
        obtain ⟨h1, h2⟩ := ih2 a s h
        obtain ⟨h3, h4⟩ := ih1 rest _ h2
        exact ⟨le_trans h1 h3, h4⟩
    · intro a s h
      cases a with
      | record o => exact ⟨le_refl _, h⟩
      | cancel id =>
        rw [show (runAct (fuel + 1) (Act.cancel id) s) = RawSignal.unsubscribe id s from rfl,
          (unsubscribe_fields id s).2.1]
        exact ⟨le_refl _, h⟩
      | subscribe body => exact ih3 body s h
      | onValue v acts =>
        rw [runAct]
        split
        · exact ih1 acts s h
        · exact ⟨le_refl _, h⟩
      | trySet v => exact ih4 _ s h
    · intro body s h
      rw [RawSignal.for_each]
      split
      · simp only
        unfold satAdd U32MAX at *
        omega
      · simp only
        obtain ⟨h1, h2⟩ := ih1 body { s with state := SignalState.Subscribing } h
        simp only at h1 h2
        unfold satAdd U32MAX at *
        omega
    · intro f s h
      rw [RawSignal.mutateCore]
      split
      · exact ih5 0 { s with state := SignalState.Mutating, value := f s.value } h
      · exact ⟨le_refl _, h⟩
    · intro i s h
      rw [RawSignal.notify_all]
      split
      · rename_i hlen
        have hs1 : s.next_id ≤
            (if (s.subscribers.get ⟨i, hlen⟩).deleted then s
              else runActs fuel (s.subscribers.get ⟨i, hlen⟩).notify
                { s with fired := s.fired ++ [(s.subscribers.get ⟨i, hlen⟩).id] }).next_id ∧
            (if (s.subscribers.get ⟨i, hlen⟩).deleted then s
              else runActs fuel (s.subscribers.get ⟨i, hlen⟩).notify
                { s with fired := s.fired ++ [(s.subscribers.get ⟨i, hlen⟩).id] }).next_id
              ≤ U32MAX := by
          split
          · exact ⟨le_refl _, h⟩
          · exact ih1 (s.subscribers.get ⟨i, hlen⟩).notify
              { s with fired := s.fired ++ [(s.subscribers.get ⟨i, hlen⟩).id] } h
        obtain ⟨h1, h2⟩ := hs1
        obtain ⟨h3, h4⟩ := ih5 (i + 1) _ h2
        exact ⟨le_trans h1 h3, h4⟩
      · split
        · exact ⟨le_refl _, h⟩
        · exact ⟨le_refl _, h⟩

/-- At any state other than `Idling` a callback cannot start a new
notification pass, so the ghost `fired` trace is untouched by callback
execution and by a subscription. -/
theorem firedConst : ∀ fuel : Nat,
    (∀ acts s, s.state ≠ SignalState.Idling → (runActs fuel acts s).fired = s.fired) ∧
    (∀ a s, s.state ≠ SignalState.Idling → (runAct fuel a s).fired = s.fired) ∧
    (∀ body s, s.state ≠ SignalState.Idling →
      (RawSignal.for_each fuel body s).fired = s.fired) := by
  intro fuel
  induction fuel with
  | zero => exact ⟨fun _ _ _ => rfl, fun _ _ _ => rfl, fun _ _ _ => rfl⟩
  | succ fuel ih =>
    obtain ⟨ih1, ih2, ih3⟩ := ih
    refine ⟨?_, ?_, ?_⟩
    · intro acts s hs
      cases acts with
      | nil => rfl
      | cons a rest =>
        rw [runActs, ih1 rest _ ?_, ih2 a s hs]
        rw [(statePres fuel).2.1 a s]
        exact hs
    · intro a s hs
      cases a with
      | record o => rfl
      | cancel id => exact (unsubscribe_fields id s).2.2.1
      | subscribe body => exact ih3 body s hs
      | onValue v acts =>
        rw [runAct]
        split
        · exact ih1 acts s hs
        · rfl
      | trySet v =>
        show (RawSignal.mutateCore fuel (fun _ => v) s).fired = s.fired
        rw [mutateCore_notIdle _ _ _ hs]
    · intro body s hs
      rw [RawSignal.for_each]
      split
      · rfl
      · simp only
        exact ih1 body { s with state := .Subscribing } (by simp)

/-- During a notification pass (state `Mutating`) a callback can only
extend the registry at the end (reentrant subscribes) or tombstone
entries in place: the identifier sequence of the registry is only ever
extended, and every appended identifier is at least the counter value at
the start of the callback. -/
theorem subsMutating : ∀ fuel : Nat,
    (∀ acts s, s.state = SignalState.Mutating → s.next_id ≤ U32MAX →
      ∃ ext, idsOf (runActs fuel acts s) = idsOf s ++ ext ∧
        ∀ y ∈ ext, s.next_id ≤ y) ∧
    (∀ a s, s.state = SignalState.Mutating → s.next_id ≤ U32MAX →
      ∃ ext, idsOf (runAct fuel a s) = idsOf s ++ ext ∧
        ∀ y ∈ ext, s.next_id ≤ y) ∧
    (∀ body s, s.state = SignalState.Mutating → s.next_id ≤ U32MAX →
      ∃ ext, idsOf (RawSignal.for_each fuel body s) = idsOf s ++ ext ∧
        ∀ y ∈ ext, s.next_id ≤ y) := by
  intro fuel
  induction fuel with
  | zero => exact ⟨fun _ s _ _ => ⟨[], by simp only [List.append_nil]; rfl, by simp⟩,
      fun _ s _ _ => ⟨[], by simp only [List.append_nil]; rfl, by simp⟩,
      fun _ s _ _ => ⟨[], by simp only [List.append_nil]; rfl, by simp⟩⟩
  | succ fuel ih =>
    obtain ⟨ih1, ih2, ih3⟩ := ih
    refine ⟨?_, ?_, ?_⟩
    · intro acts s hst hle
      cases acts with
      | nil => exact ⟨[], by simp [runActs], by simp⟩
      | cons a rest =>
        rw [runActs]
        obtain ⟨ext1, he1, hb1⟩ := ih2 a s hst hle
        have hst1 : (runAct fuel a s).state = SignalState.Mutating := by
          rw [(statePres fuel).2.1 a s]; exact hst
        obtain ⟨hm1, hm2⟩ := (monoNext fuel).2.1 a s hle
        obtain ⟨ext2, he2, hb2⟩ := ih1 rest (runAct fuel a s) hst1 hm2
        refine ⟨ext1 ++ ext2, by rw [he2, he1, List.append_assoc], ?_⟩
        intro y hy
        rcases List.mem_append.mp hy with hy | hy
        · exact hb1 y hy
        · exact le_trans hm1 (hb2 y hy)
    · intro a s hst hle
      cases a with
      | record o => exact ⟨[], by simp [runAct, idsOf], by simp⟩
      | cancel id =>
        refine ⟨[], ?_, by simp⟩
        show idsOf (RawSignal.unsubscribe id s) = idsOf s ++ []
        rw [unsubscribe_ids_mutating id s hst, List.append_nil]
      | subscribe body => exact ih3 body s hst hle
      | onValue v acts =>
        rw [runAct]
        split
        · exact ih1 acts s hst hle
        · exact ⟨[], by simp, by simp⟩
      | trySet v =>
        refine ⟨[], ?_, by simp⟩
        show idsOf (RawSignal.mutateCore fuel (fun _ => v) s) = idsOf s ++ []
        rw [mutateCore_notIdle fuel _ s (by rw [hst]; exact fun hc => SignalState.noConfusion hc),
          List.append_nil]
    · intro body s hst hle
      rw [RawSignal.for_each]
      rw [if_pos hst]
      refine ⟨[s.next_id], ?_, by simp⟩
      simp [idsOf]


theorem Inv_of_fields {s t : RawSignal} (h1 : t.subscribers = s.subscribers)
    (h2 : t.next_id = s.next_id) (h3 : t.issued = s.issued) (hs : SigInv s) : SigInv t := by
  unfold SigInv idsOf at *
  rw [h1, h2, h3]
  exact hs

/-- `unsubscribe` preserves the invariant unconditionally: it either
tombstones in place (identifiers untouched) or erases one entry
(a sublist of a sorted list). -/
theorem unsubscribe_Inv (id : Nat) (s : RawSignal) (hs : SigInv s) :
    SigInv (RawSignal.unsubscribe id s) := by
  obtain ⟨hp, hb, hip, hib, hle⟩ := hs
  obtain ⟨hst, hnext, _, hiss, _, _⟩ := unsubscribe_fields id s
  by_cases hm : s.state = SignalState.Mutating
  · have hids := unsubscribe_ids_mutating id s hm
    exact ⟨hids ▸ hp, by rw [hids, hnext]; exact hb, hiss ▸ hip,
      by rw [hiss, hnext]; exact hib, hnext ▸ hle⟩
  · have hsub : List.Sublist (idsOf (RawSignal.unsubscribe id s)) (idsOf s) := by
      unfold RawSignal.unsubscribe
      cases hbs : bsearch id s.subscribers 0 s.subscribers.length with
      | none => exact List.Sublist.refl _
      | some index =>
        simp only [if_neg hm]
        exact List.Sublist.map _ (List.eraseIdx_sublist _ _)
    exact ⟨hp.sublist hsub, fun y hy => hnext ▸ hb y (hsub.mem hy), hiss ▸ hip,
      by rw [hiss, hnext]; exact hib, hnext ▸ hle⟩

/-- Appending a fresh notifier with identifier `next_id` and bumping
the counter preserves the invariant while the counter is unsaturated. -/
theorem SigInv_push (body : List Act) (t : RawSignal) (ht : SigInv t)
    (hlt : t.next_id < U32MAX) :
    SigInv { t with
      next_id := satAdd t.next_id
      subscribers := t.subscribers ++ [{ id := t.next_id, deleted := false, notify := body }]
      issued := t.issued ++ [t.next_id] } := by
  obtain ⟨hp, hb, hip, hib, hle⟩ := ht
  have hsat : satAdd t.next_id = t.next_id + 1 := by
    unfold satAdd U32MAX at *
    omega
  refine ⟨?_, ?_, ?_, ?_, ?_⟩
  · unfold idsOf at hp ⊢
    simp only [List.map_append, List.map_cons, List.map_nil]
    rw [List.pairwise_append]
    refine ⟨hp, List.pairwise_singleton _ _, fun x hx y hy => ?_⟩
    rw [List.mem_singleton] at hy
    subst hy
    exact hb x hx
  · unfold idsOf at hb ⊢
    simp only [List.map_append, List.map_cons, List.map_nil, List.mem_append,
      List.mem_singleton, hsat]
    intro y hy
    rcases hy with hy | hy
    · have := hb y hy
      omega
    · omega
  · simp only
    rw [List.pairwise_append]
    refine ⟨hip, List.pairwise_singleton _ _, fun x hx y hy => ?_⟩
    rw [List.mem_singleton] at hy
    subst hy
    exact hib x hx
  · simp only [List.mem_append, List.mem_singleton, hsat]
    intro y hy
    rcases hy with hy | hy
    · have := hib y hy
      omega
    · omega
  · simp only [hsat]
    unfold U32MAX at *
    omega

/-- Preservation of the invariant by every interpreter entry point,
under the proviso that the identifier counter has not saturated by the
end (the counter is monotone, so this covers every intermediate step). -/
theorem InvPres : ∀ fuel : Nat,
    (∀ acts s, SigInv s → (runActs fuel acts s).next_id < U32MAX →
      SigInv (runActs fuel acts s)) ∧
    (∀ a s, SigInv s → (runAct fuel a s).next_id < U32MAX →
      SigInv (runAct fuel a s)) ∧
    (∀ body s, SigInv s → (RawSignal.for_each fuel body s).next_id < U32MAX →
      SigInv (RawSignal.for_each fuel body s)) ∧
    (∀ f s, SigInv s → (RawSignal.mutateCore fuel f s).next_id < U32MAX →
      SigInv (RawSignal.mutateCore fuel f s)) ∧
    (∀ i s, SigInv s → (RawSignal.notify_all fuel i s).next_id < U32MAX →
      SigInv (RawSignal.notify_all fuel i s)) := by
  intro fuel
  induction fuel with
  | zero => exact ⟨fun _ _ h _ => h, fun _ _ h _ => h, fun _ _ h _ => h,
      fun _ _ h _ => h, fun _ _ h _ => h⟩
  | succ fuel ih =>
    obtain ⟨ih1, ih2, ih3, ih4, ih5⟩ := ih
    refine ⟨?_, ?_, ?_, ?_, ?_⟩
    · intro acts s hs hfin
      cases acts with
      | nil => exact hs
      | cons a rest =>
        rw [runActs] at hfin ⊢
        have hle : s.next_id ≤ U32MAX := hs.2.2.2.2
        have h1 : (runAct fuel a s).next_id ≤ U32MAX :=
          ((monoNext fuel).2.1 a s hle).2
        have h2 : (runAct fuel a s).next_id ≤ (runActs fuel rest (runAct fuel a s)).next_id :=
          ((monoNext fuel).1 rest _ h1).1
        exact ih1 rest _ (ih2 a s hs (lt_of_le_of_lt h2 hfin)) hfin
    · intro a s hs hfin
      cases a with
      | record o => exact Inv_of_fields rfl rfl rfl hs
      | cancel id => exact unsubscribe_Inv id s hs
      | subscribe body => exact ih3 body s hs hfin
      | onValue v acts =>
        rw [runAct] at hfin ⊢
        by_cases hv : s.value = v
        · rw [if_pos hv] at hfin ⊢
          exact ih1 acts s hs hfin
        · rw [if_neg hv] at hfin ⊢
          exact hs
      | trySet v => exact ih4 _ s hs hfin
    · intro body s hs hfin
      rw [RawSignal.for_each] at hfin ⊢
      simp only at hfin ⊢
      by_cases hm : s.state = SignalState.Mutating
      · rw [if_pos hm] at hfin ⊢
        obtain ⟨hsat, hlt⟩ := satAdd_lt _ hfin
        exact SigInv_push body s hs hlt
      · rw [if_neg hm] at hfin ⊢
        obtain ⟨hsat, hlt⟩ := satAdd_lt _ hfin
        refine SigInv_push body _ ?_ hlt
        refine Inv_of_fields (s := runActs fuel body
          { s with state := SignalState.Subscribing }) rfl rfl rfl ?_
        exact ih1 body { s with state := SignalState.Subscribing }
          (Inv_of_fields rfl rfl rfl hs) hlt
    · intro f s hs hfin
      rw [RawSignal.mutateCore] at hfin ⊢
      by_cases hst : s.state = SignalState.Idling
      · rw [if_pos hst] at hfin ⊢
        simp only at hfin ⊢
        refine Inv_of_fields (s := RawSignal.notify_all fuel 0
          { s with state := SignalState.Mutating, value := f s.value }) rfl rfl rfl ?_
        exact ih5 0 _ (Inv_of_fields rfl rfl rfl hs) hfin
      · rw [if_neg hst] at hfin ⊢
        exact hs
    · intro i s hs hfin
      rw [RawSignal.notify_all] at hfin ⊢
      by_cases hlen : i < s.subscribers.length
      · rw [dif_pos hlen] at hfin ⊢
        simp only at hfin ⊢
        have hle : s.next_id ≤ U32MAX := hs.2.2.2.2
        by_cases hdel : (s.subscribers.get ⟨i, hlen⟩).deleted
        · rw [if_pos hdel] at hfin ⊢
          exact ih5 (i + 1) s hs hfin
        · rw [if_neg hdel] at hfin ⊢
          set t := runActs fuel (s.subscribers.get ⟨i, hlen⟩).notify
            { s with fired := s.fired ++ [(s.subscribers.get ⟨i, hlen⟩).id] } with ht
          have htle : t.next_id ≤ U32MAX :=
            ((monoNext fuel).1 (s.subscribers.get ⟨i, hlen⟩).notify
              { s with fired := s.fired ++ [(s.subscribers.get ⟨i, hlen⟩).id] } hle).2
          have hmono : t.next_id ≤ (RawSignal.notify_all fuel (i + 1) t).next_id :=
            ((monoNext fuel).2.2.2.2 (i + 1) t htle).1
          refine ih5 (i + 1) t ?_ hfin
          refine ih1 _ _ (Inv_of_fields rfl rfl rfl hs) ?_
          show t.next_id < U32MAX
          omega
      · rw [dif_neg hlen] at hfin ⊢
        by_cases hnd : s.needs_delete
        · rw [if_pos hnd] at hfin ⊢
          obtain ⟨hp, hb, hip, hib, hle⟩ := hs
          have hsub : List.Sublist
              ((s.subscribers.filter (fun n => n.deleted)).map Notifier.id)
              (s.subscribers.map Notifier.id) :=
            List.Sublist.map _ (List.filter_sublist _)
          exact ⟨hp.sublist hsub, fun y hy => hb y (hsub.mem hy), hip, hib, hle⟩
        · rw [if_neg hnd] at hfin ⊢
          exact hs

/-- In a registry sorted by strictly increasing identifier, positions
order identifiers. -/
theorem ids_get_mono (l : List Notifier)
    (hp : List.Pairwise (· < ·) (l.map Notifier.id))
    (p q : Nat) (hpl : p < l.length) (hq : q < l.length) (hlt : p < q) :
    (l.get ⟨p, hpl⟩).id < (l.get ⟨q, hq⟩).id := by
  have h := List.pairwise_iff_getElem.mp hp p q
    (by simpa using hpl) (by simpa using hq) hlt
  simpa using h

/-- If the binary search answers an index, the entry there carries the
searched identifier (no sortedness needed: the search only answers on an
exact comparison hit). -/
theorem bsearchF_sound : ∀ d key (l : List Notifier) left right i,
    bsearchF d key l left right = some i →
    ∃ h : i < l.length, (l.get ⟨i, h⟩).id = key := by
  intro d
  induction d with
  | zero =>
    intro key l left right i hb
    exact Option.noConfusion hb
  | succ d ihd =>
    intro key l left right i hb
    rw [bsearchF] at hb
    by_cases hlr : left < right
    · rw [if_pos hlr] at hb
      simp only at hb
      set mid := left + (right - left) / 2 with hmid
      cases hg : l[mid]? with
      | none => rw [hg] at hb; exact Option.noConfusion hb
      | some n =>
        rw [hg] at hb
        simp only at hb
        have hmlen : mid < l.length := by
          by_contra hc
          rw [List.getElem?_eq_none (by omega)] at hg
          exact Option.noConfusion hg
        by_cases h1 : n.id < key
        · rw [if_pos h1] at hb
          exact ihd key l (mid + 1) right i hb
        · rw [if_neg h1] at hb
          by_cases h2 : key < n.id
          · rw [if_pos h2] at hb
            exact ihd key l left mid i hb
          · rw [if_neg h2] at hb
            have hi : i = mid := by injection hb with h; omega
            subst hi
            refine ⟨hmlen, ?_⟩
            have : l[mid] = n := by
              rw [List.getElem?_eq_getElem hmlen] at hg
              injection hg
            rw [List.get_eq_getElem, this]
            omega
    · rw [if_neg hlr] at hb
      exact Option.noConfusion hb

/-- Soundness transported to the entry point. -/
theorem bsearch_sound (key : Nat) (l : List Notifier) (left right i : Nat)
    (hb : bsearch key l left right = some i) :
    ∃ h : i < l.length, (l.get ⟨i, h⟩).id = key :=
  bsearchF_sound (right - left) key l left right i hb

/-- On a registry sorted by strictly increasing identifier, the binary
search finds every identifier present in the searched window, given at
least the window size as the recursion bound. -/
theorem bsearchF_complete : ∀ d key (l : List Notifier) left right,
    right - left ≤ d →
    List.Pairwise (· < ·) (l.map Notifier.id) → right ≤ l.length →
    (∃ p, ∃ hp : p < l.length, left ≤ p ∧ p < right ∧ (l.get ⟨p, hp⟩).id = key) →
    (bsearchF d key l left right).isSome := by
  intro d
  induction d with
  | zero =>
    intro key l left right hd hsort hrl hw
    obtain ⟨p, hp, h1, h2, h3⟩ := hw
    omega
  | succ d ihd =>
    intro key l left right hd hsort hrl hw
    obtain ⟨p, hp, h1, h2, h3⟩ := hw
    have hlr : left < right := by omega
    rw [bsearchF]
    rw [if_pos hlr]
    simp only
    set mid := left + (right - left) / 2 with hmid
    have hmlen : mid < l.length := by omega
    rw [List.getElem?_eq_getElem hmlen]
    simp only
    simp only [List.get_eq_getElem, Fin.val_mk] at h3
    by_cases hc1 : l[mid].id < key
    · rw [if_pos hc1]
      refine ihd key l (mid + 1) right (by omega) hsort hrl ⟨p, hp, ?_, h2, by
        simp only [List.get_eq_getElem, Fin.val_mk]
        exact h3⟩
      by_contra hcp
      rcases Nat.lt_or_ge p mid with hplt | hpge
      · have hmono := ids_get_mono l hsort p mid hp hmlen hplt
        simp only [List.get_eq_getElem, Fin.val_mk] at hmono
        omega
      · have hpm : p = mid := by omega
        subst hpm
        omega
    · rw [if_neg hc1]
      by_cases hc2 : key < l[mid].id
      · rw [if_pos hc2]
        refine ihd key l left mid (by omega) hsort (by omega) ⟨p, hp, h1, ?_, by
          simp only [List.get_eq_getElem, Fin.val_mk]
          exact h3⟩
        by_contra hcp
        rcases Nat.lt_or_ge mid p with hplt | hpge
        · have hmono := ids_get_mono l hsort mid p hmlen hp hplt
          simp only [List.get_eq_getElem, Fin.val_mk] at hmono
          omega
        · have hpm : p = mid := by omega
          subst hpm
          omega
      · rw [if_neg hc2]
        rfl

/-- Completeness transported to the entry point. -/
theorem bsearch_complete (key : Nat) (l : List Notifier) (left right : Nat)
    (hsort : List.Pairwise (· < ·) (l.map Notifier.id)) (hrl : right ≤ l.length)
    (hw : ∃ p, ∃ hp : p < l.length, left ≤ p ∧ p < right ∧ (l.get ⟨p, hp⟩).id = key) :
    (bsearch key l left right).isSome :=
  bsearchF_complete (right - left) key l left right (le_refl _) hsort hrl hw

/-- During one notification pass, the identifiers recorded in the ghost
`fired` trace after position `b` form a strictly increasing sequence:
the pass walks the registry by position, the registry is sorted by
identifier, and every reentrant append receives a still-larger
identifier.  `b` marks the length of the trace when the pass began. -/
theorem notify_order : ∀ fuel i (s : RawSignal) b,
    SigInv s → s.state = SignalState.Mutating →
    (RawSignal.notify_all fuel i s).next_id < U32MAX →
    b ≤ s.fired.length →
    List.Pairwise (· < ·) (s.fired.drop b) →
    (∀ x ∈ s.fired.drop b, x < s.next_id) →
    (∀ x ∈ s.fired.drop b, ∀ j, i ≤ j → ∀ hj : j < (idsOf s).length, x < (idsOf s)[j]) →
    List.Pairwise (· < ·) ((RawSignal.notify_all fuel i s).fired.drop b) := by
  intro fuel
  induction fuel with
  | zero => intro i s b _ _ _ _ hpw _ _; exact hpw
  | succ fuel ih =>
    intro i s b hinv hst hfin hb hpw hbn hbj
    rw [RawSignal.notify_all] at hfin ⊢
    by_cases hlen : i < s.subscribers.length
    · rw [dif_pos hlen] at hfin ⊢
      simp only at hfin ⊢
      have hlenids : (idsOf s).length = s.subscribers.length := by simp [idsOf]
      set n := s.subscribers.get ⟨i, hlen⟩ with hn
      have hiid : i < (idsOf s).length := by omega
      have hni : n.id = (idsOf s)[i] := by
        rw [hn]
        unfold idsOf
        rw [List.get_eq_getElem, List.getElem_map]
      by_cases hdel : n.deleted
      · rw [if_pos hdel] at hfin ⊢
        exact ih (i + 1) s b hinv hst hfin hb hpw hbn
          (fun x hx j hj hjl => hbj x hx j (by omega) hjl)
      · rw [if_neg hdel] at hfin ⊢
        set s1 := { s with fired := s.fired ++ [n.id] } with hs1
        set t := runActs fuel n.notify s1 with htdef
        have hle : s.next_id ≤ U32MAX := hinv.2.2.2.2
        have hs1inv : SigInv s1 := Inv_of_fields rfl rfl rfl hinv
        have ht_state : t.state = SignalState.Mutating := by
          rw [htdef, (statePres fuel).1 n.notify s1]
          exact hst
        have hs1st : s1.state ≠ SignalState.Idling := by
          show s.state ≠ SignalState.Idling
          rw [hst]
          intro hc
          exact SignalState.noConfusion hc
        have ht_fired : t.fired = s.fired ++ [n.id] :=
          (firedConst fuel).1 n.notify s1 hs1st
        have htmono : s.next_id ≤ t.next_id ∧ t.next_id ≤ U32MAX :=
          (monoNext fuel).1 n.notify s1 hle
        have hmono2 : t.next_id ≤ (RawSignal.notify_all fuel (i + 1) t).next_id :=
          ((monoNext fuel).2.2.2.2 (i + 1) t htmono.2).1
        have htlt : t.next_id < U32MAX := lt_of_le_of_lt hmono2 hfin
        have htinv : SigInv t := (InvPres fuel).1 n.notify s1 hs1inv htlt
        obtain ⟨ext, hexteq, hextb⟩ := (subsMutating fuel).1 n.notify s1 hst hle
        have hexteq2 : idsOf t = idsOf s ++ ext := hexteq
        have hextb2 : ∀ y ∈ ext, s.next_id ≤ y := hextb
        have hnid_lt : n.id < s.next_id := by
          refine hinv.2.1 n.id ?_
          rw [hni]
          exact List.getElem_mem _
        have hdropt : t.fired.drop b = s.fired.drop b ++ [n.id] := by
          rw [ht_fired, List.drop_append_of_le_length hb]
        refine ih (i + 1) t b htinv ht_state hfin ?_ ?_ ?_ ?_
        · rw [ht_fired, List.length_append]
          omega
        · rw [hdropt, List.pairwise_append]
          refine ⟨hpw, List.pairwise_singleton _ _, fun x hx y hy => ?_⟩
          rw [List.mem_singleton] at hy
          subst hy
          have := hbj x hx i (le_refl i) (by omega)
          rw [← hni] at this
          exact this
        · rw [hdropt]
          intro x hx
          rcases List.mem_append.mp hx with hx | hx
          · exact lt_of_lt_of_le (hbn x hx) htmono.1
          · rw [List.mem_singleton] at hx
            subst hx
            exact lt_of_lt_of_le hnid_lt htmono.1
        · rw [hdropt]
          intro x hx j hij hj
          have hxlt : x < s.next_id := by
            rcases List.mem_append.mp hx with hx | hx
            · exact hbn x hx
            · rw [List.mem_singleton] at hx
              subst hx
              exact hnid_lt
          have hj2 : j < (idsOf s ++ ext).length := by rw [← hexteq2]; exact hj
          have hconv : (idsOf t)[j] = (idsOf s ++ ext)[j] := by
            simp only [hexteq2]
          rw [hconv]
          by_cases hjs : j < (idsOf s).length
          · rw [List.getElem_append_left hjs]
            rcases List.mem_append.mp hx with hx | hx
            · exact hbj x hx j (by omega) hjs
            · rw [List.mem_singleton] at hx
              subst hx
              rw [hni]
              exact List.pairwise_iff_getElem.mp hinv.1 i j (by omega) hjs (by omega)
          · rw [List.getElem_append_right (by omega)]
            refine lt_of_lt_of_le hxlt ?_
            refine hextb2 _ ?_
            exact List.getElem_mem _
    · rw [dif_neg hlen] at hfin ⊢
      by_cases hnd : s.needs_delete
      · rw [if_pos hnd] at hfin ⊢
        exact hpw
      · rw [if_neg hnd] at hfin ⊢
        exact hpw


/-- Cancelling an identifier that is not in the registry is a no-op:
the binary search can only answer an index whose entry carries the
searched identifier. -/
theorem unsubscribe_unknown (id : Nat) (s : RawSignal)
    (h : ∀ n ∈ s.subscribers, n.id ≠ id) :
    RawSignal.unsubscribe id s = s := by
  unfold RawSignal.unsubscribe
  cases hbs : bsearch id s.subscribers 0 s.subscribers.length with
  | none => rfl
  | some index =>
    obtain ⟨hlen, hid⟩ := bsearch_sound id s.subscribers 0
      s.subscribers.length index hbs
    exact absurd hid (h _ (by rw [List.get_eq_getElem]; exact List.getElem_mem hlen))

/-- The invariant holds at creation. -/
theorem SigInv_new (v : Int) : SigInv (Signal.new v) := by
  refine ⟨?_, ?_, ?_, ?_, ?_⟩ <;> simp [Signal.new, idsOf, U32MAX]

/-- Counter monotonicity and range for a top-level operation. -/
theorem runOp_mono (fuel : Nat) (op : Op) (s : RawSignal) (h : s.next_id ≤ U32MAX) :
    s.next_id ≤ (runOp fuel op s).next_id ∧ (runOp fuel op s).next_id ≤ U32MAX := by
  cases op with
  | subscribe body => exact (monoNext fuel).2.2.1 body s h
  | unsubscribe id =>
    rw [show runOp fuel (Op.unsubscribe id) s = RawSignal.unsubscribe id s from rfl,
      (unsubscribe_fields id s).2.1]
    exact ⟨le_refl _, h⟩
  | set v => exact (monoNext fuel).2.2.2.1 _ s h

/-- Invariant preservation for a top-level operation, while the counter
has not saturated. -/
theorem runOp_SigInv (fuel : Nat) (op : Op) (s : RawSignal) (hs : SigInv s)
    (hfin : (runOp fuel op s).next_id < U32MAX) : SigInv (runOp fuel op s) := by
  cases op with
  | subscribe body => exact (InvPres fuel).2.2.1 body s hs hfin
  | unsubscribe id => exact unsubscribe_Inv id s hs
  | set v => exact (InvPres fuel).2.2.2.1 _ s hs hfin

/-- Counter monotonicity and range along a sequence of operations. -/
theorem runOps_mono (fuel : Nat) : ∀ (ops : List Op) (s : RawSignal),
    s.next_id ≤ U32MAX →
    s.next_id ≤ (runOps fuel ops s).next_id ∧ (runOps fuel ops s).next_id ≤ U32MAX := by
  intro ops
  induction ops with
  | nil => exact fun s h => ⟨le_refl _, h⟩
  | cons op rest ihr =>
    intro s h
    rw [show runOps fuel (op :: rest) s = runOps fuel rest (runOp fuel op s) from rfl]
    obtain ⟨h1, h2⟩ := runOp_mono fuel op s h
    obtain ⟨h3, h4⟩ := ihr (runOp fuel op s) h2
    exact ⟨le_trans h1 h3, h4⟩

/-- Invariant preservation along a sequence of operations, while the
counter has not saturated. -/
theorem runOps_SigInv (fuel : Nat) : ∀ (ops : List Op) (s : RawSignal),
    SigInv s → (runOps fuel ops s).next_id < U32MAX → SigInv (runOps fuel ops s) := by
  intro ops
  induction ops with
  | nil => exact fun s hs _ => hs
  | cons op rest ihr =>
    intro s hs hfin
    rw [show runOps fuel (op :: rest) s = runOps fuel rest (runOp fuel op s) from rfl] at hfin ⊢
    have h2 : (runOp fuel op s).next_id ≤ U32MAX :=
      (runOp_mono fuel op s hs.2.2.2.2).2
    have h3 : (runOp fuel op s).next_id ≤ (runOps fuel rest (runOp fuel op s)).next_id :=
      (runOps_mono fuel rest _ h2).1
    exact ihr _ (runOp_SigInv fuel op s hs (lt_of_le_of_lt h3 hfin)) hfin


/-- A subscription with an empty callback body: immediate fire is a
no-op, so only the counter, registry and issued list change. -/
theorem subscribe_empty_eq (s : RawSignal) :
    runOp 1 (Op.subscribe []) s =
    { s with
      next_id := satAdd s.next_id
      subscribers := s.subscribers ++ [{ id := s.next_id, deleted := false, notify := [] }]
      issued := s.issued ++ [s.next_id] } := by
  show RawSignal.for_each 1 [] s = _
  rw [RawSignal.for_each]
  split <;> rfl

/-- Closed form of the identifiers issued by `n` successive subscribe
calls: the `k`-th call (0-based) receives `min (next_id + k) U32MAX` —
strictly increasing until the counter saturates, then constantly
`u32::MAX`. -/
theorem subscribe_rep (n : Nat) : ∀ s : RawSignal, s.next_id ≤ U32MAX →
    (runOps 1 (List.replicate n (Op.subscribe [])) s).issued =
      s.issued ++ (List.range n).map (fun k => min (s.next_id + k) U32MAX) ∧
    (runOps 1 (List.replicate n (Op.subscribe [])) s).next_id =
      min (s.next_id + n) U32MAX := by
  induction n with
  | zero =>
    intro s h
    refine ⟨by simp [runOps], by simp [runOps]; omega⟩
  | succ n ihn =>
    intro s h
    rw [List.replicate_succ]
    rw [show runOps 1 (Op.subscribe [] :: List.replicate n (Op.subscribe [])) s
        = runOps 1 (List.replicate n (Op.subscribe [])) (runOp 1 (Op.subscribe []) s) from rfl]
    rw [subscribe_empty_eq]
    have hsat : satAdd s.next_id ≤ U32MAX := by
      unfold satAdd U32MAX at *
      omega
    obtain ⟨h1, h2⟩ := ihn { s with
      next_id := satAdd s.next_id
      subscribers := s.subscribers ++ [{ id := s.next_id, deleted := false, notify := [] }]
      issued := s.issued ++ [s.next_id] } hsat
    rw [h1, h2]
    simp only
    constructor
    · rw [List.range_succ_eq_map, List.map_cons, List.map_map]
      have hf0 : min (s.next_id + 0) U32MAX = s.next_id := by
        unfold U32MAX at *
        omega
      rw [hf0]
      have hptw : (List.range n).map (fun k => min (satAdd s.next_id + k) U32MAX) =
          (List.range n).map ((fun k => min (s.next_id + k) U32MAX) ∘ Nat.succ) := by
        refine List.map_congr_left fun k _ => ?_
        unfold satAdd U32MAX
        simp only [Function.comp]
        omega
      rw [hptw, List.append_assoc, List.singleton_append]
    · unfold satAdd U32MAX at *
      omega


/-- Executing a one-action recording body consumes two fuel steps and
appends one event. -/
theorem runActs_record (fuel o : Nat) (s : RawSignal) :
    runActs (fuel + 1 + 1) [Act.record o] s =
      { s with events := s.events ++ [(o, s.value)] } := by
  rw [runActs, runAct, runActs]

/-- A body attempting a reentrant mutation while the state is not
`Idling` changes nothing. -/
theorem runActs_trySet (fuel : Nat) (w : Int) (s : RawSignal)
    (h : s.state ≠ SignalState.Idling) :
    runActs (fuel + 1 + 1) [Act.trySet w] s = s := by
  rw [runActs, runAct, mutateCore_notIdle _ _ _ h, runActs]

set_option maxHeartbeats 2000000 in
/-- C1 (code bug evidence): in the pass over subscribers {1,2,3} in
which subscriber 1 cancels subscriber 2, the tombstoned 2 is skipped
and 3 still fires in the same pass (fired = [1,3], observer 3 sees the
initial 0 and then 7, observer 2 only the initial 0); but the post-pass
sweep `retain(Notifier::deleted)` keeps exactly the tombstoned entries,
so the registry afterwards is [entry 2, tombstoned] — the opposite of
the specified compaction: 2 should be absent and 1, 3 retained. -/
theorem C1_sweep_bug :
    c1state.fired = [1, 3] ∧
    recordsOf 2 c1state = [0] ∧
    recordsOf 3 c1state = [0, 7] ∧
    c1state.subscribers.map (fun n => (n.id, n.deleted)) = [(2, true)] := by
  refine ⟨by decide, by decide, by decide, by decide⟩

set_option maxHeartbeats 2000000 in
/-- C2 (counterexample): in the end-to-end scenario the claim's final
state for observer B is wrong: because the notification pass re-reads
the registry length, B (subscribed at index 1 during the pass for value
10) is reached by that very pass and records 10 as well. -/
theorem C2_counterexample :
    ¬ (recordsOf 0 c2state = [0, 5, 10, 15] ∧ recordsOf 1 c2state = [15]) := by
  decide

set_option maxHeartbeats 2000000 in
/-- C2 (amended): A records [0,5,10,15]; B, subscribed from inside A's
callback for value 10, does not fire at subscribe time but is appended
and reached later in the same pass, so B records [10,15]. -/
theorem C2_end_to_end :
    recordsOf 0 c2state = [0, 5, 10, 15] ∧ recordsOf 1 c2state = [10, 15] := by
  refine ⟨by decide, by decide⟩

/-- C3: any mutation attempted while the cell is not `Idling` (in
particular from inside a notification pass, where the state is
`Mutating`) fails: the fallible entry points return the updating error,
the state-transformer leaves the state exactly as it was, its result
does not depend on the mutation closure (the closure is never invoked),
and the infallible entry points abort (modelled as `none`). -/
theorem C3_single_writer (fuel : Nat) (f g : Int → Int) (v : Int) (s : RawSignal)
    (h : s.state ≠ SignalState.Idling) :
    RawSignal.try_mutate fuel f s = Except.error {} ∧
    Signal.try_set fuel v s = Except.error {} ∧
    Signal.try_update fuel g s = Except.error {} ∧
    RawSignal.mutateCore fuel f s = s ∧
    RawSignal.mutateCore fuel f s = RawSignal.mutateCore fuel g s ∧
    Signal.mutate fuel f s = none ∧
    Signal.update fuel g s = none ∧
    Signal.set fuel v s = none := by
  have he : ∀ k : Int → Int, RawSignal.try_mutate fuel k s = Except.error {} := by
    intro k
    unfold RawSignal.try_mutate
    rw [if_neg h]
  have hc : ∀ k : Int → Int, RawSignal.mutateCore fuel k s = s :=
    fun k => mutateCore_notIdle fuel k s h
  refine ⟨he f, he _, he _, hc f, by rw [hc f, hc g], ?_, ?_, ?_⟩
  · unfold Signal.mutate
    rw [he f]
  · unfold Signal.update Signal.try_update
    rw [he _]
  · unfold Signal.set Signal.try_set
    rw [he _]

/-- C3 witness: a concrete mid-pass cell. -/
theorem C3_single_writer_witness :
    mutatingState.state ≠ SignalState.Idling ∧
    Signal.mutate 5 (fun x => x + 1) mutatingState = none ∧
    RawSignal.mutateCore 5 (fun x => x + 1) mutatingState = mutatingState :=
  ⟨by decide,
   (C3_single_writer 5 (fun x => x + 1) (fun x => x * 2) 9 mutatingState
     (by decide)).2.2.2.2.2.1,
   (C3_single_writer 5 (fun x => x + 1) (fun x => x * 2) 9 mutatingState
     (by decide)).2.2.2.1⟩


/-- Running a concatenation of operation sequences composes. -/
theorem runOps_append (fuel : Nat) (l1 l2 : List Op) (s : RawSignal) :
    runOps fuel (l1 ++ l2) s = runOps fuel l2 (runOps fuel l1 s) := by
  unfold runOps
  rw [List.foldl_append]

/-- C4 (counterexample): after 4294967296 subscribe calls the counter
has saturated at u32::MAX = 4294967295, so the last two calls both
receive the identifier 4294967295 — the issued identifiers are not
strictly increasing and are reused; saturation prevents wrap-around
reuse of small identifiers but reuses u32::MAX itself. -/
theorem C4_counterexample :
    ¬ List.Pairwise (· < ·)
      (runOps 1 (List.replicate 4294967296 (Op.subscribe [])) (Signal.new 0)).issued := by
  have hsplit : List.replicate 4294967296 (Op.subscribe []) =
      List.replicate 4294967294 (Op.subscribe []) ++ [Op.subscribe [], Op.subscribe []] := by
    have h2 : (4294967296 : Nat) = 4294967294 + 2 := by norm_num
    rw [h2, List.replicate_add]
    rfl
  have hle : (Signal.new 0).next_id ≤ U32MAX := by norm_num [Signal.new, U32MAX]
  have hnext : (runOps 1 (List.replicate 4294967294 (Op.subscribe []))
      (Signal.new 0)).next_id = U32MAX := by
    rw [(subscribe_rep 4294967294 (Signal.new 0) hle).2]
    simp only [Signal.new]
    unfold U32MAX
    omega
  intro hpw
  rw [hsplit, runOps_append] at hpw
  set s1 := runOps 1 (List.replicate 4294967294 (Op.subscribe [])) (Signal.new 0) with hs1
  have hs2 : (runOps 1 [Op.subscribe [], Op.subscribe []] s1).issued =
      s1.issued ++ [s1.next_id] ++ [satAdd s1.next_id] := by
    rw [show runOps 1 [Op.subscribe [], Op.subscribe []] s1 =
        runOp 1 (Op.subscribe []) (runOp 1 (Op.subscribe []) s1) from rfl,
      subscribe_empty_eq, subscribe_empty_eq]
  rw [hs2, hnext] at hpw
  have hsatm : satAdd U32MAX = U32MAX := by
    unfold satAdd U32MAX
    omega
  rw [hsatm, List.append_assoc] at hpw
  have h3 := (List.pairwise_append.mp hpw).2.1
  rw [List.singleton_append, List.pairwise_cons] at h3
  have h4 := h3.1 U32MAX (by simp)
  omega

/-- C4 (amended): identifiers issued by successive subscribe calls on
one cell are strictly increasing (hence never reused, the later call
receiving the larger identifier) for every operation sequence
throughout which the counter has not saturated. -/
theorem C4_monotonic_ids (fuel : Nat) (ops : List Op) (v : Int)
    (h : (runOps fuel ops (Signal.new v)).next_id < U32MAX) :
    List.Pairwise (· < ·) (runOps fuel ops (Signal.new v)).issued :=
  (runOps_SigInv fuel ops (Signal.new v) (SigInv_new v) h).2.2.1

/-- C4 witness: two subscriptions issue 1 then 2. -/
theorem C4_monotonic_ids_witness :
    (runOps 1 [Op.subscribe [], Op.subscribe []] (Signal.new 0)).next_id < U32MAX ∧
    List.Pairwise (· < ·)
      (runOps 1 [Op.subscribe [], Op.subscribe []] (Signal.new 0)).issued :=
  ⟨by decide, C4_monotonic_ids 1 [Op.subscribe [], Op.subscribe []] 0 (by decide)⟩

/-- C5: subscribing while no pass is running fires the new callback
exactly once, synchronously, with the current value (one event is
recorded), under a forced `Subscribing` state that is restored
afterwards (the restored state equals the original, and a reentrant
mutation attempted from inside the immediate fire is rejected, leaving
the value unchanged); and in every case — fired or not (the last
conjunct is the mid-pass case) — the callback is appended to the
registry as a live notifier under the assigned identifier. -/
theorem C5_immediate_fire (fuel o : Nat) (w : Int) (b2 : List Act) (s s2 : RawSignal)
    (h : s.state ≠ SignalState.Mutating) (h2 : s2.state = SignalState.Mutating) :
    (RawSignal.for_each (fuel + 1 + 1 + 1) [Act.record o] s).events =
      s.events ++ [(o, s.value)] ∧
    (RawSignal.for_each (fuel + 1 + 1 + 1) [Act.record o] s).state = s.state ∧
    (RawSignal.for_each (fuel + 1 + 1 + 1) [Act.record o] s).subscribers =
      s.subscribers ++ [{ id := s.next_id, deleted := false, notify := [Act.record o] }] ∧
    (RawSignal.for_each (fuel + 1 + 1 + 1) [Act.trySet w] s).value = s.value ∧
    (RawSignal.for_each (fuel + 1 + 1 + 1) b2 s2).subscribers =
      s2.subscribers ++ [{ id := s2.next_id, deleted := false, notify := b2 }] := by
  have hone : RawSignal.for_each (fuel + 1 + 1 + 1) [Act.record o] s =
      { s with
        events := s.events ++ [(o, s.value)]
        next_id := satAdd s.next_id
        subscribers := s.subscribers ++
          [{ id := s.next_id, deleted := false, notify := [Act.record o] }]
        issued := s.issued ++ [s.next_id] } := by
    rw [RawSignal.for_each, if_neg h, runActs_record]
  have htwo : RawSignal.for_each (fuel + 1 + 1 + 1) [Act.trySet w] s =
      { s with
        next_id := satAdd s.next_id
        subscribers := s.subscribers ++
          [{ id := s.next_id, deleted := false, notify := [Act.trySet w] }]
        issued := s.issued ++ [s.next_id] } := by
    rw [RawSignal.for_each, if_neg h, runActs_trySet _ _ _ (by simp)]
  refine ⟨by rw [hone], by rw [hone], by rw [hone], by rw [htwo], ?_⟩
  rw [RawSignal.for_each, if_pos h2]

/-- C5 witness: a freshly created idle cell holding 3. -/
theorem C5_immediate_fire_witness :
    (Signal.new 3).state ≠ SignalState.Mutating ∧
    (RawSignal.for_each (0 + 1 + 1 + 1) [Act.record 9] (Signal.new 3)).events =
      (Signal.new 3).events ++ [(9, (Signal.new 3).value)] :=
  ⟨by decide,
   (C5_immediate_fire 0 9 5 [] (Signal.new 3) mutatingState (by decide) (by decide)).1⟩

set_option maxHeartbeats 2000000 in
/-- C6: subscribing from inside the cell's own in-progress pass (state
`Mutating`) does not fire the new callback at all — the whole effect is
the append of a live notifier (plus counter bump and ghost issue); and
in the concrete scenario with 3 pre-existing subscribers where the 2nd
subscribes a 4th during the pass for value 7, the pass (re-reading the
registry length each step) reaches the 4th, which is notified exactly
once in that same pass: the fired trace is [1,2,3,4] and observer 4
records exactly [7]. -/
theorem C6_reentrant_subscribe (body : List Act) (fl : Nat) (s2 : RawSignal)
    (h2 : s2.state = SignalState.Mutating) :
    RawSignal.for_each (fl + 1) body s2 =
      { s2 with
        next_id := satAdd s2.next_id
        subscribers := s2.subscribers ++
          [{ id := s2.next_id, deleted := false, notify := body }]
        issued := s2.issued ++ [s2.next_id] } ∧
    c6state.fired = [1, 2, 3, 4] ∧
    recordsOf 4 c6state = [7] := by
  refine ⟨?_, by decide, by decide⟩
  rw [RawSignal.for_each, if_pos h2]

/-- C6 witness: a concrete mid-pass cell receives the append only. -/
theorem C6_reentrant_subscribe_witness :
    mutatingState.state = SignalState.Mutating ∧
    (RawSignal.for_each (0 + 1) [] mutatingState).subscribers =
      [{ id := 1, deleted := false, notify := [] }] := by
  refine ⟨by decide, ?_⟩
  rw [(C6_reentrant_subscribe [] 0 mutatingState (by decide)).1]
  exact rfl

/-- C7: cancellation is idempotent and total: running an unsubscriber a
second time returns exactly the state after the first run; running one
after the owning cell is destroyed (the weak reference upgrades to
nothing) leaves nothing to act on; and cancelling an identifier absent
from the registry leaves the cell exactly as it was. -/
theorem C7_idempotent_cancel (u : Unsubscriber) (cell : Option RawSignal)
    (s : RawSignal) (id : Nat) (h : ∀ n ∈ s.subscribers, n.id ≠ id) :
    Unsubscriber.unsubscribe (u.unsubscribe cell).1 (u.unsubscribe cell).2 =
      u.unsubscribe cell ∧
    (Unsubscriber.unsubscribe u none).2 = none ∧
    RawSignal.unsubscribe id s = s := by
  refine ⟨?_, ?_, unsubscribe_unknown id s h⟩
  · obtain ⟨info⟩ := u
    cases info with
    | none => rfl
    | some i => rfl
  · obtain ⟨info⟩ := u
    cases info with
    | none => rfl
    | some i => rfl

/-- C7 witness: an unsubscriber for identifier 5 over an empty fresh
registry. -/
theorem C7_idempotent_cancel_witness :
    (∀ n ∈ (Signal.new 0).subscribers, n.id ≠ 5) ∧
    RawSignal.unsubscribe 5 (Signal.new 0) = Signal.new 0 :=
  ⟨by decide,
   (C7_idempotent_cancel ⟨some 5⟩ (some (Signal.new 0)) (Signal.new 0) 5
     (by decide)).2.2⟩


/-- C8: within one notification pass started by a mutation from a
reachable state, the callbacks are invoked in strictly increasing
identifier order (the fired-trace segment appended by the pass is
sorted — subscription order, oldest first), provided the identifier
counter has not saturated; and any callback subscribed reentrantly
during the pass is appended at the end of the registry.  The interpreter
is a function, so the order is deterministic for every fixed operation
sequence. -/
theorem C8_pass_order (fuel fl : Nat) (ops : List Op) (v : Int) (f : Int → Int)
    (b2 : List Act) (s2 : RawSignal) (h2 : s2.state = SignalState.Mutating)
    (hfin : (RawSignal.mutateCore fl f (runOps fuel ops (Signal.new v))).next_id < U32MAX) :
    List.Pairwise (· < ·)
      ((RawSignal.mutateCore fl f (runOps fuel ops (Signal.new v))).fired.drop
        (runOps fuel ops (Signal.new v)).fired.length) ∧
    (RawSignal.for_each (fl + 1) b2 s2).subscribers =
      s2.subscribers ++ [{ id := s2.next_id, deleted := false, notify := b2 }] := by
  refine ⟨?_, by rw [RawSignal.for_each, if_pos h2]⟩
  have hle0 : (Signal.new v).next_id ≤ U32MAX := by norm_num [Signal.new, U32MAX]
  set s := runOps fuel ops (Signal.new v) with hs
  have hsle : s.next_id ≤ U32MAX := (runOps_mono fuel ops (Signal.new v) hle0).2
  have hslt : s.next_id < U32MAX :=
    lt_of_le_of_lt ((monoNext fl).2.2.2.1 f s hsle).1 hfin
  have hsinv : SigInv s := runOps_SigInv fuel ops (Signal.new v) (SigInv_new v) hslt
  cases fl with
  | zero =>
    show List.Pairwise (· < ·) (s.fired.drop s.fired.length)
    rw [List.drop_length]
    exact List.Pairwise.nil
  | succ fl =>
    rw [RawSignal.mutateCore] at hfin ⊢
    by_cases hst : s.state = SignalState.Idling
    · rw [if_pos hst] at hfin ⊢
      simp only at hfin ⊢
      refine notify_order fl 0 { s with state := SignalState.Mutating, value := f s.value }
        s.fired.length (Inv_of_fields rfl rfl rfl hsinv) rfl hfin (le_refl _) ?_ ?_ ?_
      · show List.Pairwise (· < ·) (s.fired.drop s.fired.length)
        rw [List.drop_length]
        exact List.Pairwise.nil
      · show ∀ x ∈ s.fired.drop s.fired.length, _
        rw [List.drop_length]
        intro x hx
        exact absurd hx (List.not_mem_nil x)
      · show ∀ x ∈ s.fired.drop s.fired.length, _
        rw [List.drop_length]
        intro x hx
        exact absurd hx (List.not_mem_nil x)
    · rw [if_neg hst] at hfin ⊢
      show List.Pairwise (· < ·) (s.fired.drop s.fired.length)
      rw [List.drop_length]
      exact List.Pairwise.nil

/-- C8 witness: one subscriber, one mutation. -/
theorem C8_pass_order_witness :
    mutatingState.state = SignalState.Mutating ∧
    (RawSignal.mutateCore 5 (fun x => x + 1)
      (runOps 9 [Op.subscribe [Act.record 1]] (Signal.new 0))).next_id < U32MAX ∧
    List.Pairwise (· < ·)
      ((RawSignal.mutateCore 5 (fun x => x + 1)
        (runOps 9 [Op.subscribe [Act.record 1]] (Signal.new 0))).fired.drop
          (runOps 9 [Op.subscribe [Act.record 1]] (Signal.new 0)).fired.length) := by
  refine ⟨by decide, by decide, ?_⟩
  exact (C8_pass_order 9 5 [Op.subscribe [Act.record 1]] 0 (fun x => x + 1) []
    mutatingState (by decide) (by decide)).1

/-- C9: the scoped unsubscriber.  Dropping it performs exactly the one
cancellation of its inner unsubscriber (Rust runs drop once, at scope
end, on every exit path); dropping it again after it has been consumed
changes nothing; take hands the subscription over unchanged to the
returned plain unsubscriber, and what take leaves behind cancels
nothing when subsequently dropped. -/
theorem C9_scoped_unsubscriber (u : Unsubscriber) (cell c2 : Option RawSignal) :
    DroppableUnsubscriber.drop ⟨u⟩ cell = u.unsubscribe cell ∧
    (DroppableUnsubscriber.take ⟨u⟩).1 = u ∧
    DroppableUnsubscriber.drop (DroppableUnsubscriber.take ⟨u⟩).2 c2 = (⟨none⟩, c2) ∧
    DroppableUnsubscriber.drop ⟨(DroppableUnsubscriber.drop ⟨u⟩ cell).1⟩
        (DroppableUnsubscriber.drop ⟨u⟩ cell).2 =
      ((DroppableUnsubscriber.drop ⟨u⟩ cell).1,
       (DroppableUnsubscriber.drop ⟨u⟩ cell).2) := by
  obtain ⟨info⟩ := u
  refine ⟨rfl, rfl, rfl, ?_⟩
  cases info with
  | none => rfl
  | some i => rfl

/-- C10: for every operation sequence from a fresh cell throughout
which the identifier counter has not saturated, the registry stays
sorted in strictly increasing identifier order; on such a sorted
registry the binary search used by unsubscribe is exact — whatever
index it answers carries the searched identifier, and it finds every
identifier that is present. -/
theorem C10_registry_sorted (fuel : Nat) (ops : List Op) (v : Int)
    (l : List Notifier) (key i : Nat)
    (h : (runOps fuel ops (Signal.new v)).next_id < U32MAX)
    (hsort : List.Pairwise (· < ·) (l.map Notifier.id))
    (hfound : bsearch key l 0 l.length = some i)
    (hmem : key ∈ l.map Notifier.id) :
    List.Pairwise (· < ·) (idsOf (runOps fuel ops (Signal.new v))) ∧
    (∃ hl : i < l.length, (l.get ⟨i, hl⟩).id = key) ∧
    (bsearch key l 0 l.length).isSome := by
  refine ⟨(runOps_SigInv fuel ops (Signal.new v) (SigInv_new v) h).1,
    bsearch_sound key l 0 l.length i hfound, ?_⟩
  obtain ⟨n, hn, hid⟩ := List.mem_map.mp hmem
  obtain ⟨p, hp, hgp⟩ := List.mem_iff_getElem.mp hn
  refine bsearch_complete key l 0 l.length hsort (le_refl _)
    ⟨p, hp, Nat.zero_le p, hp, ?_⟩
  rw [List.get_eq_getElem]
  simp only [Fin.val_mk]
  rw [hgp]
  exact hid

/-- C10 witness: a two-entry sorted registry, searching for 3. -/
theorem C10_registry_sorted_witness :
    (runOps 0 [] (Signal.new 0)).next_id < U32MAX ∧
    bsearch 3 [{ id := 1, deleted := false, notify := [] },
      { id := 3, deleted := false, notify := [] }] 0 2 = some 1 ∧
    (∃ hl : 1 < ([{ id := 1, deleted := false, notify := [] },
        { id := 3, deleted := false, notify := [] }] : List Notifier).length,
      (([{ id := 1, deleted := false, notify := [] },
        { id := 3, deleted := false, notify := [] }] : List Notifier).get ⟨1, hl⟩).id = 3) := by
  refine ⟨by decide, by decide, ?_⟩
  exact (C10_registry_sorted 0 [] 0
    [{ id := 1, deleted := false, notify := [] },
     { id := 3, deleted := false, notify := [] }] 3 1
    (by decide) (by decide) (by decide) (by decide)).2.1

